import Mathlib

/-!
Verification development for the PAL2 PT-MCMC sampler
(PALInferencePTMCMC.py, PALInferenceRJMCMC.py).

The Python source is shallowly embedded: pure fragments become Lean
functions over exact rationals; randomness is made explicit by passing
the drawn uniforms, normal draws and received messages as arguments;
numpy float infinities and nan are modelled by an explicit extended
value type where the control flow depends on them.  External numeric
primitives (sqrt, exp, log of numpy) are passed as abstract function
parameters, matching the spec, which declares them out-of-scope
collaborators.
-/

namespace PAL2

/-- Jump-proposal kernels registered in the proposal cycle
(covarianceJumpProposalSCAM, covarianceJumpProposalAM, DEJump,
KDEJumpProposal in the source). -/
inductive Kernel where
  | SCAM : Kernel
  | AM : Kernel
  | DE : Kernel
  | KDE : Kernel
deriving DecidableEq, Repr

instance : Inhabited Kernel := ⟨Kernel.SCAM⟩

/-- Embedding of PTSampler.addProposalToCycle (PALInferencePTMCMC.py
lines 846-865).  The Python code prints an error and calls sys.exit()
when weight == 0; this fatal exit is modelled as none.  Otherwise the
loop for ii in range(length, length + weight) appends the kernel
weight times (zero times when weight is negative, since the range is
then empty), modelled by List.replicate weight.toNat. -/
def addProposalToCycle (cycle : List Kernel) (func : Kernel) (weight : ℤ) :
    Option (List Kernel) :=
  if weight = 0 then none
  else some (cycle ++ List.replicate weight.toNat func)

/-- Embedding of the step-size cascade of covarianceJumpProposalSCAM
(PALInferencePTMCMC.py lines 711-728).  prob is the fresh uniform
draw np.random.rand(); the branches are, in source order:
if prob > 0.9 then 0.2 elif prob > 0.97 then 10 else 1.0. -/
def scaleSCAM (prob : ℚ) : ℚ :=
  if prob > 9/10 then 1/5
  else if prob > 97/100 then 10
  else 1

/-- Embedding of the step-size cascade of covarianceJumpProposalAM
(PALInferencePTMCMC.py lines 766-783), textually identical to the
SCAM cascade: if prob > 0.9 then 0.2 elif prob > 0.97 then 10
else 1.0. -/
def scaleAM (prob : ℚ) : ℚ :=
  if prob > 9/10 then 1/5
  else if prob > 97/100 then 10
  else 1

/-- Embedding of PTSampler.temperatureLadder (PALInferencePTMCMC.py
lines 541-562).  The numpy primitives np.sqrt, np.exp and np.log are
abstract parameters sqrtQ, expQ, logQ.  With nchain > 1 the step is
1 + sqrt(2/ndim) when both tstep and Tmax are unset,
exp(log(Tmax/Tmin)/(nchain-1)) when tstep is unset and Tmax is set,
and the given tstep otherwise; the ladder is Tmin * tstep ^ ii for
ii in range(nchain).  With nchain = 1 the ladder is [1]. -/
def temperatureLadder (sqrtQ expQ logQ : ℚ → ℚ) (nchain ndim : ℕ)
    (Tmin : ℚ) (Tmax tstep : Option ℚ) : List ℚ :=
  if 1 < nchain then
    let ts : ℚ :=
      match tstep, Tmax with
      | none, none => 1 + sqrtQ (2 / (ndim : ℚ))
      | none, some tmax => expQ (logQ (tmax / Tmin) / ((nchain : ℚ) - 1))
      | some t, _ => t
    (List.range nchain).map fun ii => Tmin * ts ^ ii
  else [1]

/-- Messages and random draws visible to one rank during one call of
PTswap.  Each field models one MPI receive, probe or numpy random
draw of the source: readyToSwap is the Iprobe result on the hotter
rank, recvLnlike the likelihood received from the colder rank,
logu the value np.log(np.random.rand()) used in the acceptance test,
recvDecision the accept flag the colder rank receives back,
recvLnlikeSwap the likelihood the colder rank receives on accept, and
recvParams the parameter vector received in the final exchange. -/
structure CommEnv where
  readyToSwap : Bool
  recvLnlike : ℚ
  logu : ℚ
  recvDecision : Bool
  recvLnlikeSwap : ℚ
  recvParams : List ℚ

/-- Result of one PTswap call: the return code (0 = no swap proposed,
1 = proposed and rejected, 2 = proposed and accepted), the updated
state triple, and the accept/reject decision the hotter rank sends
back to the colder rank (none when no message was handled). -/
structure SwapResult where
  swapReturn : ℕ
  p0 : List ℚ
  lnlike0 : ℚ
  lnprob0 : ℚ
  decision : Option Bool
deriving DecidableEq, Repr

/-- Embedding of PTSampler.PTswap (PALInferencePTMCMC.py lines
445-538).  The first branch (iter mod Tskip = 0 and rank < nchain-1)
is the colder partner: it proposes a swap, sends its likelihood and
acts on the decision received back.  The elif branch (rank > 0) is the
hotter partner: when a message is pending it receives the colder
likelihood newlnlike, computes
logChainSwap = (1/ladder[rank-1] - 1/ladder[rank]) * (lnlike0 - newlnlike)
and accepts exactly when logChainSwap > log(rand()); on accept both
sides exchange likelihoods and parameters and recompute
lnprob0 = 1/temp * lnlike0 + logp(p0) at their own temperature.
swapReturn reports 2/1/0 as in the source (only the colder branch sets
swapProposed). -/
def PTswap (rank nchain Tskip iter : ℕ) (ladder : ℕ → ℚ) (temp : ℚ)
    (logp : List ℚ → ℚ) (env : CommEnv)
    (p0 : List ℚ) (lnlike0 lnprob0 : ℚ) : SwapResult :=
  if iter % Tskip = 0 ∧ rank < nchain - 1 then
    if env.recvDecision then
      let lnlike1 := env.recvLnlikeSwap
      let p1 := env.recvParams
      ⟨2, p1, lnlike1, 1/temp * lnlike1 + logp p1, none⟩
    else ⟨1, p0, lnlike0, lnprob0, none⟩
  else if 0 < rank then
    if env.readyToSwap then
      let newlnlike := env.recvLnlike
      let logChainSwap :=
        (1/ladder (rank-1) - 1/ladder rank) * (lnlike0 - newlnlike)
      if logChainSwap > env.logu then
        let p1 := env.recvParams
        ⟨0, p1, newlnlike, 1/temp * newlnlike + logp p1, some true⟩
      else ⟨0, p0, lnlike0, lnprob0, some false⟩
    else ⟨0, p0, lnlike0, lnprob0, none⟩
  else ⟨0, p0, lnlike0, lnprob0, none⟩

/-- Embedding of the swap accounting in PTMCMCOneStep
(PALInferencePTMCMC.py lines 436-439): a nonzero swapReturn increments
swapProposed, and swapReturn = 2 additionally increments
nswap_accepted. -/
def swapCounterStep (c : ℕ × ℕ) (swapReturn : ℕ) : ℕ × ℕ :=
  if swapReturn ≠ 0 then
    (c.1 + 1, if swapReturn = 2 then c.2 + 1 else c.2)
  else c

/-- Swap counters of a single-chain run after n iterations: both
counters start at 0 (initialize, lines 128-129) and each iteration
applies swapCounterStep to the swapReturn of that PTswap call.  The
per-iteration message environments and state triples are arbitrary
streams. -/
def singleChainCounters (Tskip : ℕ) (ladder : ℕ → ℚ) (temp : ℚ)
    (logp : List ℚ → ℚ) (envs : ℕ → CommEnv)
    (states : ℕ → List ℚ × ℚ × ℚ) : ℕ → ℕ × ℕ
  | 0 => (0, 0)
  | n+1 =>
    swapCounterStep
      (singleChainCounters Tskip ladder temp logp envs states n)
      (PTswap 0 1 Tskip (n+1) ladder temp logp (envs (n+1))
        (states (n+1)).1 (states (n+1)).2.1 (states (n+1)).2.2).swapReturn

/-- Support of the draw np.random.randint(0, length-1, length) in
randomizeProposalCycle (PALInferencePTMCMC.py line 893): numpy randint
draws size integers uniformly from the half-open range [low, high),
here low = 0 and high = length - 1, so the draw is any list of length
indices each strictly below length - 1. -/
def randomizeDraw (length : ℕ) (index : List ℕ) : Prop :=
  index.length = length ∧ ∀ i ∈ index, i < length - 1

instance (length : ℕ) (index : List ℕ) : Decidable (randomizeDraw length index) := by
  unfold randomizeDraw
  infer_instance

/-- Embedding of PTSampler.randomizeProposalCycle (PALInferencePTMCMC.py
lines 883-896) given the drawn index list: the randomized cycle is
[self.propCycle[ind] for ind in index].  Out-of-range indices, which
the support forbids, default to the first kernel. -/
def randomizeProposalCycle (propCycle : List Kernel) (index : List ℕ) :
    List Kernel :=
  index.map fun ind => propCycle.getD ind default

/-- Embedding of the proposal-cycle evolution of the cold chain
(rank 0) inside PTMCMCOneStep.  The KDE block (PALInferencePTMCMC.py
lines 354-362) runs when (iter-1) % KDEupdate = 0,
(iter-1) >= burn + KDEupdate and KDEweight > 0, and adds the KDE
kernel exactly when additionally (iter-1) = burn + KDEupdate; the DE
block (lines 390-394) adds the DE kernel when (iter-1) = burn.  The
none result propagates the fatal exit of addProposalToCycle. -/
def cycleStep (burn KDEupdate : ℕ) (KDEweight DEweight : ℤ) (iter : ℕ)
    (cyc : List Kernel) : Option (List Kernel) :=
  (if (iter - 1) % KDEupdate = 0 ∧ burn + KDEupdate ≤ iter - 1 ∧ 0 < KDEweight then
    if iter - 1 = burn + KDEupdate then
      addProposalToCycle cyc Kernel.KDE KDEweight
    else some cyc
  else some cyc).bind fun c =>
    if iter - 1 = burn then addProposalToCycle c Kernel.DE DEweight else some c

/-- Initial proposal cycle of a chain (initialize, PALInferencePTMCMC.py
lines 140-146): SCAM with SCAMweight, then AM with AMweight. -/
def initCycle (SCAMweight AMweight : ℤ) : Option (List Kernel) :=
  (addProposalToCycle [] Kernel.SCAM SCAMweight).bind fun c =>
    addProposalToCycle c Kernel.AM AMweight

/-- Proposal-cycle contents of the cold chain after the step at
iteration n; the sampler loop increments iter to 1 before the first
PTMCMCOneStep call, so step n uses iter = n. -/
def cycleRun (SCAMweight AMweight : ℤ) (burn KDEupdate : ℕ)
    (KDEweight DEweight : ℤ) : ℕ → Option (List Kernel)
  | 0 => initCycle SCAMweight AMweight
  | n+1 =>
    (cycleRun SCAMweight AMweight burn KDEupdate KDEweight DEweight n).bind
      (cycleStep burn KDEupdate KDEweight DEweight (n+1))

/-- Extended numeric values modelling the numpy floats that carry the
log-prior, log-likelihood and log-posterior: finite values are exact
rationals, and the infinities and nan follow IEEE semantics in the
operations below. -/
inductive F where
  | nan : F
  | neginf : F
  | posinf : F
  | fin : ℚ → F
deriving DecidableEq, Repr

/-- IEEE addition on extended values: nan propagates, opposite
infinities give nan, an infinity absorbs finite values. -/
def F.add : F → F → F
  | F.nan, _ => F.nan
  | _, F.nan => F.nan
  | F.neginf, F.posinf => F.nan
  | F.posinf, F.neginf => F.nan
  | F.neginf, _ => F.neginf
  | _, F.neginf => F.neginf
  | F.posinf, _ => F.posinf
  | _, F.posinf => F.posinf
  | F.fin a, F.fin b => F.fin (a + b)

/-- IEEE negation on extended values. -/
def F.neg : F → F
  | F.nan => F.nan
  | F.neginf => F.posinf
  | F.posinf => F.neginf
  | F.fin a => F.fin (-a)

/-- IEEE subtraction, a - b = a + (-b). -/
def F.sub (a b : F) : F := a.add b.neg

/-- IEEE multiplication on extended values: nan propagates, zero times
an infinity is nan, otherwise signs multiply. -/
def F.mul : F → F → F
  | F.nan, _ => F.nan
  | _, F.nan => F.nan
  | F.fin a, F.fin b => F.fin (a * b)
  | F.posinf, F.posinf => F.posinf
  | F.posinf, F.neginf => F.neginf
  | F.neginf, F.posinf => F.neginf
  | F.neginf, F.neginf => F.posinf
  | F.fin a, F.posinf =>
    if 0 < a then F.posinf else if a < 0 then F.neginf else F.nan
  | F.fin a, F.neginf =>
    if 0 < a then F.neginf else if a < 0 then F.posinf else F.nan
  | F.posinf, F.fin a =>
    if 0 < a then F.posinf else if a < 0 then F.neginf else F.nan
  | F.neginf, F.fin a =>
    if 0 < a then F.neginf else if a < 0 then F.posinf else F.nan

/-- IEEE strict greater-than on extended values: any comparison with
nan is false, negative infinity exceeds nothing, positive infinity
exceeds everything except itself and nan. -/
def F.gt : F → F → Bool
  | F.nan, _ => false
  | _, F.nan => false
  | F.neginf, _ => false
  | F.posinf, F.posinf => false
  | F.posinf, _ => true
  | F.fin _, F.posinf => false
  | F.fin _, F.neginf => true
  | F.fin a, F.fin b => decide (b < a)

/-- Result of the Metropolis-Hastings core: the updated state
(parameter vector, log-likelihood, log-posterior, acceptance counter),
whether the log-likelihood callable was invoked on the candidate, and
the tempered log-posterior computed for the candidate. -/
structure MHResult where
  p0 : List ℚ
  lnlike0 : F
  lnprob0 : F
  naccepted : ℕ
  loglCalled : Bool
  newlnprob : F
deriving Repr

/-- Embedding of the non-resuming jump branch of PTMCMCOneStep
(PALInferencePTMCMC.py lines 407-430).  y is the candidate produced
by the jump cycle, qxy its log proposal ratio, logu the value
np.log(np.random.rand()).  The source computes lp = logp(y); when
lp == -inf it sets newlnprob = -inf without calling the likelihood,
otherwise newlnlike = logl(y) and
newlnprob = (1/temp) * newlnlike + lp.  The Hastings test accepts when
newlnprob - lnprob0 + qxy > logu.  In the lp == -inf branch the local
newlnlike of the source is never assigned (taking the accept path
there would raise NameError); the unreachable accept path is modelled
with the placeholder F.nan. -/
def mhCore (temp : ℚ) (logp logl : List ℚ → F)
    (p0 : List ℚ) (lnlike0 lnprob0 : F) (naccepted : ℕ)
    (y : List ℚ) (qxy : F) (logu : F) : MHResult :=
  let lp := logp y
  if lp = F.neginf then
    let newlnprob := F.neginf
    let diff := (newlnprob.sub lnprob0).add qxy
    if diff.gt logu then
      ⟨y, F.nan, newlnprob, naccepted + 1, false, newlnprob⟩
    else
      ⟨p0, lnlike0, lnprob0, naccepted, false, newlnprob⟩
  else
    let newlnlike := logl y
    let newlnprob := ((F.fin (1/temp)).mul newlnlike).add lp
    let diff := (newlnprob.sub lnprob0).add qxy
    if diff.gt logu then
      ⟨y, newlnlike, newlnprob, naccepted + 1, true, newlnprob⟩
    else
      ⟨p0, lnlike0, lnprob0, naccepted, true, newlnprob⟩

/-- Parameter vectors of the covariance machinery, dimension d. -/
def Vec (d : ℕ) : Type := Fin d → ℚ

/-- Square rational matrices of the covariance machinery. -/
def Mat (d : ℕ) : Type := Fin d → Fin d → ℚ

/-- Running Welford state of _updateRecursive: the sample counter it,
the running mean mu and the scatter matrix M2. -/
structure WelfordState (d : ℕ) where
  it : ℕ
  mu : Vec d
  M2 : Mat d

/-- One pass of the inner loop of PTSampler._updateRecursive
(PALInferencePTMCMC.py lines 608-616): it increments, diff is the
sample minus the old mean, every mean component moves by diff/it, and
M2 gains np.outer(diff, sample - new mean). -/
def welfordStep {d : ℕ} (st : WelfordState d) (x : Vec d) : WelfordState d :=
  let it := st.it + 1
  let diff : Vec d := fun j => x j - st.mu j
  let mu : Vec d := fun j => st.mu j + diff j / (it : ℚ)
  ⟨it, mu, fun i j => st.M2 i j + diff i * (x j - mu j)⟩

/-- Welford state after consuming the first n buffer samples, starting
from the reset state (it = 0, zero mean, zero scatter). -/
def welfordIter {d : ℕ} (buffer : ℕ → Vec d) : ℕ → WelfordState d
  | 0 => ⟨0, fun _ => 0, fun _ _ => 0⟩
  | n+1 => welfordStep (welfordIter buffer n) (buffer n)

/-- Embedding of PTSampler._updateRecursive (PALInferencePTMCMC.py
lines 592-621), which the cold chain calls with iter a positive
multiple of mem = covUpdate: it = iter - mem; when it = 0 the mean and
scatter reset to zero; the loop consumes buffer samples
iter-mem .. iter-1; afterwards cov = M2 / (it - 1), and the SVD of cov
is recomputed (an external collaborator carrying no extra state
here).  Returns the new Welford state together with cov. -/
def updateRecursive {d : ℕ} (iter mem : ℕ) (buffer : ℕ → Vec d)
    (mu0 : Vec d) (M20 : Mat d) : WelfordState d × Mat d :=
  let it0 := iter - mem
  let st0 : WelfordState d :=
    if it0 = 0 then ⟨0, fun _ => 0, fun _ _ => 0⟩ else ⟨it0, mu0, M20⟩
  let st := (List.range mem).foldl
    (fun s ii => welfordStep s (buffer (it0 + ii))) st0
  (st, fun i j => st.M2 i j / ((st.it : ℚ) - 1))

/-- Mean of the first n buffer samples (zero when n = 0, matching the
reset state, because rational division by zero is zero). -/
def meanN {d : ℕ} (buffer : ℕ → Vec d) (n : ℕ) : Vec d :=
  fun j => (∑ k ∈ Finset.range n, buffer k j) / (n : ℚ)

/-- Scatter matrix of the first n buffer samples about their mean. -/
def scatterN {d : ℕ} (buffer : ℕ → Vec d) (n : ℕ) : Mat d :=
  fun i j => ∑ k ∈ Finset.range n,
    (buffer k i - meanN buffer n i) * (buffer k j - meanN buffer n j)

/-- Quadratic form of a matrix. -/
def quadForm {d : ℕ} (M : Mat d) (y : Vec d) : ℚ :=
  ∑ i, ∑ j, y i * M i j * y j

/-- Positive semi-definiteness over the rationals: symmetric with a
nonnegative quadratic form at every vector. -/
def PSDQ {d : ℕ} (M : Mat d) : Prop :=
  (∀ i j, M i j = M j i) ∧ ∀ y : Vec d, 0 ≤ quadForm M y

/-- External Gaussian KDE collaborator of the RJMCMC wrapper
(scipy.stats.gaussian_kde): evaluate is the density, resample the next
sample it would return.  The densities are exact rationals here; the
numpy logarithm is passed separately as an abstract function. -/
structure KDEModel (V : Type) where
  evaluate : V → ℚ
  resample : V

/-- Embedding of RJMCMCSampler.gaussianKDEJump (PALInferenceRJMCMC.py
lines 90-117).  keys models self.TDJumpDict.keys(); the random draw
ind = np.random.randint(0, self.nmodels) is an arbitrary position into
it (nmodels = keys.length once every registered model has a KDE).  The
target model is m1 = keys[ind], the proposal x1 is resampled from the
KDE of m1, and both density evaluations use the KDE of the current
model m0: qxy = log(p0 / p1) with p0 = kde[m0].evaluate(x0) and
p1 = kde[m0].evaluate(x1).  logf abstracts np.log. -/
def gaussianKDEJump {M V : Type} (keys : List M) (TDJumpDict : M → KDEModel V)
    (logf : ℚ → ℚ) (x0 : V) (m0 : M) (ind : Fin keys.length) : V × M × ℚ :=
  let m1 := keys.get ind
  let x1 := (TDJumpDict m1).resample
  let p0 := (TDJumpDict m0).evaluate x0
  let p1 := (TDJumpDict m0).evaluate x1
  (x1, m1, logf (p0 / p1))

end PAL2

namespace PAL2

/-- C7 counterexample: addProposalToCycle with the non-positive weight
-1 does not signal the fatal error (it returns a live cycle, having
appended nothing), so the fatal exit does not fire for every
non-strictly-positive weight, only for weight = 0. -/
theorem addProposalToCycle_negative_weight_not_fatal :
    addProposalToCycle [] Kernel.SCAM (-1) = some [] ∧ ¬ (0 < (-1 : ℤ)) := by
  constructor
  · decide
  · decide

/-- C7 amended: addProposalToCycle signals the fatal configuration
error exactly when the weight equals zero; a strictly positive weight
appends the kernel weight-many consecutive times at the end of the
cycle; a negative weight silently appends nothing.  Consequently every
kernel present in the cycle entered through a strictly positive
weight. -/
theorem addProposalToCycle_spec (cycle : List Kernel) (func : Kernel) (weight : ℤ) :
    (addProposalToCycle cycle func weight = none ↔ weight = 0) ∧
    (0 < weight →
      addProposalToCycle cycle func weight
        = some (cycle ++ List.replicate weight.toNat func)) ∧
    (weight < 0 → addProposalToCycle cycle func weight = some cycle) ∧
    (∀ c, addProposalToCycle cycle func weight = some c →
      ∀ k, k ∈ c → k ∈ cycle ∨ (k = func ∧ 0 < weight)) := by
  refine ⟨?_, ?_, ?_, ?_⟩
  · constructor
    · intro h
      by_contra hw
      simp [addProposalToCycle, hw] at h
    · intro h
      simp [addProposalToCycle, h]
  · intro h
    have : weight ≠ 0 := by omega
    simp [addProposalToCycle, this]
  · intro h
    have h0 : weight ≠ 0 := by omega
    have ht : weight.toNat = 0 := Int.toNat_of_nonpos (le_of_lt h)
    simp [addProposalToCycle, h0, ht]
  · intro c hc k hk
    by_cases hw : weight = 0
    · simp [addProposalToCycle, hw] at hc
    · simp [addProposalToCycle, hw] at hc
      subst hc
      rcases List.mem_append.mp hk with h1 | h2
      · exact Or.inl h1
      · right
        refine ⟨List.eq_of_mem_replicate h2, ?_⟩
        by_contra hpos
        have : weight.toNat = 0 := Int.toNat_of_nonpos (by omega)
        rw [this] at h2
        simp at h2

/-- C7 witness: instantiation of addProposalToCycle_spec at a concrete
cycle and weight. -/
theorem addProposalToCycle_spec_witness :
    addProposalToCycle [Kernel.AM] Kernel.DE 2
      = some ([Kernel.AM] ++ List.replicate (2 : ℤ).toNat Kernel.DE) :=
  (addProposalToCycle_spec [Kernel.AM] Kernel.DE 2).2.1 (by decide)

/-- C2 counterexample: at the uniform draw 0.98 both conditions
u > 0.97 and u > 0.9 hold, yet SCAM and AM both pick scale 0.2, not
10, because the source tests u > 0.9 first; the 10 branch is dead. -/
theorem scale_cascade_counterexample :
    scaleSCAM (98/100) = 1/5 ∧ scaleAM (98/100) = 1/5 ∧
    (98 : ℚ)/100 > 97/100 ∧ scaleSCAM (98/100) ≠ 10 := by
  refine ⟨?_, ?_, by norm_num, ?_⟩ <;> simp [scaleSCAM, scaleAM] <;> norm_num

/-- C2 amended: for every call of the SCAM and AM proposal kernels the
per-step scale equals 0.2 exactly when the uniform draw exceeds 0.9
(probability 0.1) and 1.0 otherwise; the scale 10 arm is unreachable
because the source tests u > 0.9 before u > 0.97, so the u > 0.9 arm
dominates when both conditions hold. -/
theorem scale_cascade_spec (u : ℚ) :
    scaleSCAM u = (if u > 9/10 then 1/5 else 1) ∧
    scaleSCAM u ≠ 10 ∧
    scaleAM u = scaleSCAM u := by
  refine ⟨?_, ?_, ?_⟩
  · by_cases h : u > 9/10
    · simp [scaleSCAM, h]
    · have h97 : ¬ u > 97/100 := by
        intro hc
        exact h (lt_trans (by norm_num) hc)
      simp [scaleSCAM, h, h97]
  · by_cases h : u > 9/10
    · simp [scaleSCAM, h]
      norm_num
    · have h97 : ¬ u > 97/100 := by
        intro hc
        exact h (lt_trans (by norm_num) hc)
      simp [scaleSCAM, h, h97]
  · unfold scaleSCAM scaleAM
    rfl

/-- C2 witness: instantiation of scale_cascade_spec at the concrete
draw u = 1/2. -/
theorem scale_cascade_spec_witness :
    scaleSCAM (1/2) = (if (1:ℚ)/2 > 9/10 then 1/5 else 1) ∧
    scaleSCAM (1/2) ≠ 10 ∧
    scaleAM (1/2) = scaleSCAM (1/2) :=
  scale_cascade_spec (1/2)

/-- C9 confirmed: temperatureLadder produces the geometric ladder
Tmin * tstep ^ i for i in range(K); when both Tmax and tstep are unset
the step is 1 + sqrt(2/d); when Tmax is set and tstep unset the step
is exp(log(Tmax/Tmin)/(K-1)); and with K = 1 the ladder is exactly
[1], whatever Tmin and Tmax are. -/
theorem temperatureLadder_spec (sqrtQ expQ logQ : ℚ → ℚ) (ndim : ℕ) (Tmin : ℚ) :
    (∀ Tmax tstep, temperatureLadder sqrtQ expQ logQ 1 ndim Tmin Tmax tstep = [1]) ∧
    (∀ K, 1 < K →
      temperatureLadder sqrtQ expQ logQ K ndim Tmin none none
        = (List.range K).map fun i => Tmin * (1 + sqrtQ (2 / (ndim : ℚ))) ^ i) ∧
    (∀ K tmax, 1 < K →
      temperatureLadder sqrtQ expQ logQ K ndim Tmin (some tmax) none
        = (List.range K).map fun i =>
            Tmin * (expQ (logQ (tmax / Tmin) / ((K : ℚ) - 1))) ^ i) := by
  refine ⟨?_, ?_, ?_⟩
  · intro Tmax tstep
    simp [temperatureLadder]
  · intro K hK
    simp [temperatureLadder, hK]
  · intro K tmax hK
    simp [temperatureLadder, hK]

/-- C9 witness: instantiation of temperatureLadder_spec with identity
stand-ins for the numeric primitives at K = 2, d = 2, Tmin = 1. -/
theorem temperatureLadder_spec_witness :
    temperatureLadder id id id 2 2 1 none none
      = (List.range 2).map fun i => 1 * (1 + id (2 / (2 : ℚ))) ^ i :=
  (temperatureLadder_spec id id id 2 1).2.1 2 (by decide)

/-- C1 counterexample: with ladder temperatures T0 = 1, T1 = 2, own
(hotter) likelihood 1, received colder likelihood 0 and
log u = -1/10, the hotter rank accepts the swap (it sends back true),
although the claimed threshold
(1/T0 - 1/T1) * (logL_colder - logL_own) = -1/2 is below log u, so
the claimed acceptance rule predicts rejection.  The source multiplies
by (lnlike0 - newlnlike), own minus colder, not colder minus own. -/
theorem PTswap_accept_sign_counterexample :
    (PTswap 1 2 100 1 (fun i => (i : ℚ) + 1) 2 (fun _ => 0)
      ⟨true, 0, -1/10, false, 0, []⟩ [] 1 0).decision = some true ∧
    ¬ ((-1/10 : ℚ) < (1/1 - 1/2) * (0 - 1)) := by
  constructor
  · norm_num [PTswap]
  · norm_num

/-- C1 amended: when the hotter rank (rank > 0, not in the colder
proposing branch) finds a pending message from rank-1 carrying the
colder log-likelihood, it accepts the swap iff
log u < (1/T[rank-1] - 1/T[rank]) * (logL_own - logL_colder), with
logL_own the hotter chain likelihood and logL_colder the received one,
and sends that boolean decision back. -/
theorem PTswap_hot_accept_spec (rank nchain Tskip iter : ℕ) (ladder : ℕ → ℚ)
    (temp : ℚ) (logp : List ℚ → ℚ) (env : CommEnv) (p0 : List ℚ)
    (lnlike0 lnprob0 : ℚ) (hrank : 0 < rank)
    (hnp : ¬ (iter % Tskip = 0 ∧ rank < nchain - 1))
    (hready : env.readyToSwap = true) :
    (PTswap rank nchain Tskip iter ladder temp logp env p0 lnlike0 lnprob0).decision
      = some (decide (env.logu <
          (1/ladder (rank-1) - 1/ladder rank) * (lnlike0 - env.recvLnlike))) := by
  unfold PTswap
  rw [if_neg hnp, if_pos hrank, hready, if_pos rfl]
  dsimp only
  split_ifs with h
  · simpa [one_div] using h
  · simpa [one_div] using h

/-- C1 witness: instantiation of PTswap_hot_accept_spec at rank 1 of a
two-chain ladder with an accepting draw. -/
theorem PTswap_hot_accept_spec_witness :
    (PTswap 1 2 100 1 (fun i => (i : ℚ) + 1) 2 (fun _ => 0)
      ⟨true, 0, -3/4, false, 0, []⟩ [] 1 0).decision = some true := by
  have h := PTswap_hot_accept_spec 1 2 100 1 (fun i => (i : ℚ) + 1) 2 (fun _ => 0)
      ⟨true, 0, -3/4, false, 0, []⟩ [] 1 0 (by decide) (by decide) rfl
  rw [h]
  norm_num

/-- Helper: a nonzero weight never triggers the fatal exit and appends
weight.toNat copies of the kernel. -/
lemma addProposalToCycle_some (cycle : List Kernel) (func : Kernel) (w : ℤ)
    (hw : w ≠ 0) :
    addProposalToCycle cycle func w
      = some (cycle ++ List.replicate w.toNat func) := by
  simp [addProposalToCycle, hw]

/-- C5 counterexample: for a cycle of length 2 no draw in the support
of np.random.randint(0, length-1, length) contains the last position
1, so the last position has zero probability of appearing in the
randomized traversal order, contradicting the claimed full range. -/
theorem randomize_last_position_counterexample :
    ¬ ∃ index : List ℕ, randomizeDraw 2 index ∧ 1 ∈ index := by
  rintro ⟨index, ⟨hlen, hlt⟩, hmem⟩
  have := hlt 1 hmem
  omega

/-- C5 amended: re-randomization of a cycle of length L draws L
indices uniformly (with replacement) from {0,...,L-2}, because numpy
randint excludes its upper bound length-1; hence for L >= 2 the last
position never appears in the randomized traversal order, every
traversal entry comes from a position strictly below L-1, and every
position strictly below L-1 has positive probability (some draw in the
support reaches it). -/
theorem randomize_draw_spec (propCycle : List Kernel) (index : List ℕ)
    (hL : 2 ≤ propCycle.length)
    (hdraw : randomizeDraw propCycle.length index) :
    (propCycle.length - 1) ∉ index ∧
    (∀ k ∈ randomizeProposalCycle propCycle index,
      ∃ i, i < propCycle.length - 1 ∧ propCycle.getD i default = k) ∧
    (∀ j, j < propCycle.length - 1 →
      ∃ index2, randomizeDraw propCycle.length index2 ∧ j ∈ index2) := by
  obtain ⟨hlen, hlt⟩ := hdraw
  refine ⟨?_, ?_, ?_⟩
  · intro hmem
    have := hlt _ hmem
    omega
  · intro k hk
    obtain ⟨i, hi, hik⟩ := List.mem_map.mp hk
    exact ⟨i, hlt i hi, hik⟩
  · intro j hj
    refine ⟨List.replicate propCycle.length j, ⟨by simp, ?_⟩, ?_⟩
    · intro i hi
      have := List.eq_of_mem_replicate hi
      omega
    · refine List.mem_replicate.mpr ⟨by omega, rfl⟩

/-- C5 witness: instantiation of randomize_draw_spec at the two-kernel
cycle [SCAM, AM] with the draw [0, 0]. -/
theorem randomize_draw_spec_witness :
    (1 : ℕ) ∉ [0, 0] ∧
    (∀ k ∈ randomizeProposalCycle [Kernel.SCAM, Kernel.AM] [0, 0],
      ∃ i, i < 1 ∧ ([Kernel.SCAM, Kernel.AM] : List Kernel).getD i default = k) ∧
    (∀ j, j < 1 → ∃ index2, randomizeDraw 2 index2 ∧ j ∈ index2) := by
  have h := randomize_draw_spec [Kernel.SCAM, Kernel.AM] [0, 0]
    (by decide) ⟨rfl, by decide⟩
  simpa using h

/-- Helper: one cycleStep never kills a live cycle when both weights
are nonzero, and it only appends kernels. -/
lemma cycleStep_mono (burn KDEupdate : ℕ) (Kw Dw : ℤ) (iter : ℕ)
    (c : List Kernel) (hK : Kw ≠ 0) (hD : Dw ≠ 0) :
    ∃ c2, cycleStep burn KDEupdate Kw Dw iter c = some c2 ∧
      ∀ k ∈ c, k ∈ c2 := by
  unfold cycleStep
  have step2 : ∀ c1 : List Kernel, (∀ k ∈ c, k ∈ c1) →
      ∃ c2, ((if iter - 1 = burn
          then addProposalToCycle c1 Kernel.DE Dw else some c1) = some c2
        ∧ ∀ k ∈ c, k ∈ c2) := by
    intro c1 hc1
    by_cases h3 : iter - 1 = burn
    · rw [if_pos h3, addProposalToCycle_some _ _ _ hD]
      exact ⟨_, rfl, fun k hk => List.mem_append_left _ (hc1 k hk)⟩
    · rw [if_neg h3]
      exact ⟨c1, rfl, hc1⟩
  by_cases h1 : (iter - 1) % KDEupdate = 0 ∧ burn + KDEupdate ≤ iter - 1 ∧ 0 < Kw
  · by_cases h2 : iter - 1 = burn + KDEupdate
    · rw [if_pos h1, if_pos h2, addProposalToCycle_some _ _ _ hK, Option.some_bind]
      exact step2 _ fun k hk => List.mem_append_left _ hk
    · rw [if_pos h1, if_neg h2, Option.some_bind]
      exact step2 c fun k hk => hk
  · rw [if_neg h1, Option.some_bind]
    exact step2 c fun k hk => hk

/-- Helper: when KDEupdate divides burn, the step at iteration
burn + KDEupdate + 1 adds the KDE kernel to the cycle. -/
lemma cycleStep_adds_KDE (burn KDEupdate : ℕ) (Kw Dw : ℤ) (c : List Kernel)
    (hK : 0 < Kw) (hD : Dw ≠ 0)
    (hdvd : KDEupdate ∣ burn) :
    ∃ c2, cycleStep burn KDEupdate Kw Dw (burn + KDEupdate + 1) c = some c2 ∧
      Kernel.KDE ∈ c2 := by
  unfold cycleStep
  have hiter : burn + KDEupdate + 1 - 1 = burn + KDEupdate := rfl
  rw [hiter]
  have hmod : (burn + KDEupdate) % KDEupdate = 0 := by
    obtain ⟨t, rfl⟩ := hdvd
    simp [Nat.add_mod, Nat.mul_mod_right]
  rw [if_pos ⟨hmod, le_refl _, hK⟩, if_pos rfl,
    addProposalToCycle_some _ _ _ (ne_of_gt hK), Option.some_bind]
  have hKDEmem : Kernel.KDE ∈ c ++ List.replicate Kw.toNat Kernel.KDE := by
    refine List.mem_append_right _ (List.mem_replicate.mpr ⟨?_, rfl⟩)
    omega
  by_cases h3 : burn + KDEupdate = burn
  · rw [if_pos h3, addProposalToCycle_some _ _ _ hD]
    exact ⟨_, rfl, List.mem_append_left _ hKDEmem⟩
  · rw [if_neg h3]
    exact ⟨_, rfl, hKDEmem⟩

/-- Helper: the cycle stays live at every iteration when all weights
are nonzero. -/
lemma cycleRun_some (Sw Aw Kw Dw : ℤ) (burn KDEupdate : ℕ)
    (hS : Sw ≠ 0) (hA : Aw ≠ 0) (hK : Kw ≠ 0) (hD : Dw ≠ 0) :
    ∀ n, ∃ c, cycleRun Sw Aw burn KDEupdate Kw Dw n = some c := by
  intro n
  induction n with
  | zero =>
    refine ⟨List.replicate Sw.toNat Kernel.SCAM
      ++ List.replicate Aw.toNat Kernel.AM, ?_⟩
    simp [cycleRun, initCycle, addProposalToCycle_some _ _ _ hS,
      addProposalToCycle_some _ _ _ hA]
  | succ m ih =>
    obtain ⟨c, hc⟩ := ih
    obtain ⟨c2, hc2, _⟩ := cycleStep_mono burn KDEupdate Kw Dw (m+1) c hK hD
    exact ⟨c2, by simp [cycleRun, hc, hc2]⟩

/-- C4 counterexample: with burn = 3 and KDEupdate = 2 (all weights
positive, so KDEweight > 0 holds), the cold chain is far past
iteration burn + KDEupdate = 5 at iteration 12, yet its proposal cycle
is exactly [SCAM, AM, DE]: the KDE kernel was never added, because the
addition is guarded by (iter-1) % KDEupdate = 0 together with
(iter-1) = burn + KDEupdate, which is unsatisfiable when KDEupdate
does not divide burn. -/
theorem kde_activation_counterexample :
    cycleRun 1 1 3 2 1 1 12 = some [Kernel.SCAM, Kernel.AM, Kernel.DE] ∧
    (5 : ℕ) ≤ 12 ∧
    Kernel.KDE ∉ [Kernel.SCAM, Kernel.AM, Kernel.DE] := by
  refine ⟨by decide, by decide, by decide⟩

/-- C4 amended: with KDEweight > 0 and nonzero remaining weights, the
KDE kernel joins the cold-chain proposal cycle if and only if the
guard can fire, which requires KDEupdate to divide burn; in that case
it is added during the step at iteration burn + KDEupdate + 1 (the
first step after the chain completes iteration burn + KDEupdate) and
the cycle contains it from then on.  When KDEupdate does not divide
burn the kernel is never added (see the counterexample). -/
theorem kde_activation_amended (Sw Aw Kw Dw : ℤ) (burn KDEupdate : ℕ)
    (hS : Sw ≠ 0) (hA : Aw ≠ 0) (hKu : 0 < KDEupdate) (hK : 0 < Kw)
    (hD : Dw ≠ 0) (hdvd : KDEupdate ∣ burn) :
    ∀ n, burn + KDEupdate + 1 ≤ n →
      ∃ c, cycleRun Sw Aw burn KDEupdate Kw Dw n = some c ∧
        Kernel.KDE ∈ c := by
  intro n hn
  induction n, hn using Nat.le_induction with
  | base =>
    obtain ⟨c, hc⟩ := cycleRun_some Sw Aw Kw Dw burn KDEupdate hS hA
      (ne_of_gt hK) hD (burn + KDEupdate)
    obtain ⟨c2, hc2, hmem⟩ := cycleStep_adds_KDE burn KDEupdate Kw Dw c
      hK hD hdvd
    exact ⟨c2, by simp [cycleRun, hc, hc2], hmem⟩
  | succ m hm ih =>
    obtain ⟨c, hc, hmem⟩ := ih
    obtain ⟨c2, hc2, hmono⟩ := cycleStep_mono burn KDEupdate Kw Dw (m+1) c
      (ne_of_gt hK) hD
    exact ⟨c2, by simp [cycleRun, hc, hc2], hmono _ hmem⟩

/-- C4 witness: instantiation of kde_activation_amended with
burn = 2, KDEupdate = 2 at iteration 5. -/
theorem kde_activation_amended_witness :
    ∃ c, cycleRun 1 1 2 2 1 1 5 = some c ∧ Kernel.KDE ∈ c :=
  kde_activation_amended 1 1 1 1 2 2 (by decide) (by decide) (by decide)
    (by decide) (by decide) (by decide) 5 (by decide)

/-- Helper: a Hastings difference built from a candidate log-posterior
of negative infinity is negative infinity or nan, and IEEE strict
comparison of either against anything is false. -/
lemma neginf_diff_gt_false (lnprob0 qxy logu : F) :
    ((F.neginf.sub lnprob0).add qxy).gt logu = false := by
  cases lnprob0 <;> cases qxy <;> cases logu <;> rfl

/-- C3 confirmed: in one MH step, when the candidate y has
logp(y) = -inf, the likelihood callable is not invoked for y, the
candidate tempered posterior is set to -inf, and the candidate is
never accepted: the state triple and naccepted are returned unchanged,
for every proposal ratio qxy and every random draw logu (including the
edge draws giving log u = -inf, and nan arithmetic), and the step
always returns normally. -/
theorem mhCore_prior_reject (temp : ℚ) (logp logl : List ℚ → F)
    (p0 : List ℚ) (lnlike0 lnprob0 : F) (naccepted : ℕ)
    (y : List ℚ) (qxy logu : F) (hlp : logp y = F.neginf) :
    mhCore temp logp logl p0 lnlike0 lnprob0 naccepted y qxy logu
      = ⟨p0, lnlike0, lnprob0, naccepted, false, F.neginf⟩ := by
  unfold mhCore
  rw [hlp]
  rw [if_pos rfl]
  dsimp only
  rw [neginf_diff_gt_false]
  simp

/-- C3 witness: instantiation of mhCore_prior_reject at a concrete
prior that rejects everything. -/
theorem mhCore_prior_reject_witness :
    mhCore 1 (fun _ => F.neginf) (fun _ => F.fin 0) [] (F.fin 0) (F.fin 0) 0
      [1] (F.fin 0) (F.fin (-1))
      = ⟨[], F.fin 0, F.fin 0, 0, false, F.neginf⟩ :=
  mhCore_prior_reject 1 (fun _ => F.neginf) (fun _ => F.fin 0) [] (F.fin 0)
    (F.fin 0) 0 [1] (F.fin 0) (F.fin (-1)) rfl

/-- Helper: the deviations from the mean over the first n samples sum
to zero. -/
lemma sum_dev_zero {d : ℕ} (buffer : ℕ → Vec d) (n : ℕ) (j : Fin d) :
    ∑ k ∈ Finset.range n, (buffer k j - meanN buffer n j) = 0 := by
  rcases Nat.eq_zero_or_pos n with h | h
  · subst h
    simp
  · have hn : (n : ℚ) ≠ 0 := Nat.cast_ne_zero.mpr (by omega)
    rw [Finset.sum_sub_distrib, Finset.sum_const, Finset.card_range,
      nsmul_eq_mul]
    unfold meanN
    field_simp

/-- Helper: one-step recurrence of the running mean. -/
lemma meanN_succ {d : ℕ} (buffer : ℕ → Vec d) (m : ℕ) (j : Fin d) :
    meanN buffer (m+1) j
      = meanN buffer m j
        + (buffer m j - meanN buffer m j) / ((m+1 : ℕ) : ℚ) := by
  rcases Nat.eq_zero_or_pos m with h | h
  · subst h
    simp [meanN]
  · have hm : (m : ℚ) ≠ 0 := Nat.cast_ne_zero.mpr (by omega)
    have hm1 : ((m : ℚ) + 1) ≠ 0 := by positivity
    unfold meanN
    rw [Finset.sum_range_succ]
    push_cast
    field_simp
    ring

/-- Helper: one-step recurrence of the scatter matrix, matching the
rank-one update np.outer(diff, x - new mean) of the source. -/
lemma scatterN_succ {d : ℕ} (buffer : ℕ → Vec d) (m : ℕ) (i j : Fin d) :
    scatterN buffer (m+1) i j
      = scatterN buffer m i j
        + (buffer m i - meanN buffer m i)
          * (buffer m j - meanN buffer (m+1) j) := by
  have hm1 : ((m : ℚ) + 1) ≠ 0 := by positivity
  unfold scatterN
  rw [Finset.sum_range_succ]
  have hterm : ∀ k ∈ Finset.range m,
      (buffer k i - meanN buffer (m+1) i) * (buffer k j - meanN buffer (m+1) j)
        = (buffer k i - meanN buffer m i) * (buffer k j - meanN buffer m j)
          - (meanN buffer (m+1) i - meanN buffer m i)
            * (buffer k j - meanN buffer m j)
          - (meanN buffer (m+1) j - meanN buffer m j)
            * (buffer k i - meanN buffer m i)
          + (meanN buffer (m+1) i - meanN buffer m i)
            * (meanN buffer (m+1) j - meanN buffer m j) := by
    intro k _
    ring
  rw [Finset.sum_congr rfl hterm, Finset.sum_add_distrib,
    Finset.sum_sub_distrib, Finset.sum_sub_distrib,
    ← Finset.mul_sum, ← Finset.mul_sum, sum_dev_zero, sum_dev_zero,
    Finset.sum_const, Finset.card_range, nsmul_eq_mul]
  rw [meanN_succ buffer m i, meanN_succ buffer m j]
  push_cast
  field_simp
  ring

/-- Helper: the Welford recursion computes exactly the running mean
and scatter of the consumed samples. -/
lemma welfordIter_eq {d : ℕ} (buffer : ℕ → Vec d) (n : ℕ) :
    welfordIter buffer n = ⟨n, meanN buffer n, scatterN buffer n⟩ := by
  induction n with
  | zero =>
    have h1 : meanN buffer 0 = fun _ : Fin d => (0 : ℚ) := by
      funext j
      simp [meanN]
    have h2 : scatterN buffer 0 = fun _ _ : Fin d => (0 : ℚ) := by
      funext i j
      simp [scatterN]
    rw [h1, h2]
    rfl
  | succ m ih =>
    rw [welfordIter, ih]
    unfold welfordStep
    dsimp only
    have h1 : meanN buffer (m+1)
        = fun j => meanN buffer m j
          + (buffer m j - meanN buffer m j) / ((m+1 : ℕ) : ℚ) := by
      funext j
      exact meanN_succ buffer m j
    have h2 : scatterN buffer (m+1)
        = fun i j => scatterN buffer m i j
          + (buffer m i - meanN buffer m i)
            * (buffer m j - (meanN buffer m j
              + (buffer m j - meanN buffer m j) / ((m+1 : ℕ) : ℚ))) := by
      funext i j
      rw [scatterN_succ buffer m i j, meanN_succ buffer m j]
    rw [h1, h2]

/-- Helper: continuing the Welford fold over the next mem buffer
samples advances the state from it0 to it0 + mem samples. -/
lemma welfordChunk_eq {d : ℕ} (buffer : ℕ → Vec d) (it0 mem : ℕ) :
    (List.range mem).foldl (fun s ii => welfordStep s (buffer (it0 + ii)))
      (welfordIter buffer it0) = welfordIter buffer (it0 + mem) := by
  induction mem with
  | zero => rfl
  | succ m ih =>
    rw [List.range_succ, List.foldl_append, ih]
    rfl

/-- Helper: the scatter matrix is positive semi-definite, since its
quadratic form is a sum of squares of projections. -/
lemma scatterN_psd {d : ℕ} (buffer : ℕ → Vec d) (n : ℕ) :
    PSDQ (scatterN buffer n) := by
  constructor
  · intro i j
    unfold scatterN
    exact Finset.sum_congr rfl fun k _ => by ring
  · intro y
    unfold quadForm scatterN
    have h1 : ∑ i, ∑ j, y i * (∑ k ∈ Finset.range n,
          (buffer k i - meanN buffer n i) * (buffer k j - meanN buffer n j)) * y j
        = ∑ k ∈ Finset.range n,
            (∑ i, y i * (buffer k i - meanN buffer n i))
          * (∑ j, y j * (buffer k j - meanN buffer n j)) := by
      calc ∑ i, ∑ j, y i * (∑ k ∈ Finset.range n,
              (buffer k i - meanN buffer n i) * (buffer k j - meanN buffer n j)) * y j
          = ∑ i, ∑ j, ∑ k ∈ Finset.range n,
              (y i * (buffer k i - meanN buffer n i))
            * (y j * (buffer k j - meanN buffer n j)) := by
            refine Finset.sum_congr rfl fun i _ => Finset.sum_congr rfl fun j _ => ?_
            rw [Finset.mul_sum, Finset.sum_mul]
            exact Finset.sum_congr rfl fun k _ => by ring
        _ = ∑ i, ∑ k ∈ Finset.range n, ∑ j,
              (y i * (buffer k i - meanN buffer n i))
            * (y j * (buffer k j - meanN buffer n j)) :=
            Finset.sum_congr rfl fun i _ => Finset.sum_comm
        _ = ∑ k ∈ Finset.range n, ∑ i, ∑ j,
              (y i * (buffer k i - meanN buffer n i))
            * (y j * (buffer k j - meanN buffer n j)) :=
            Finset.sum_comm
        _ = ∑ k ∈ Finset.range n,
              (∑ i, y i * (buffer k i - meanN buffer n i))
            * (∑ j, y j * (buffer k j - meanN buffer n j)) := by
            exact Finset.sum_congr rfl fun k _ => (Finset.sum_mul_sum _ _ _ _).symm
    rw [h1]
    exact Finset.sum_nonneg fun k _ => mul_self_nonneg _

/-- Helper: dividing a PSD matrix entrywise by a nonnegative scalar
preserves positive semi-definiteness. -/
lemma PSDQ_div {d : ℕ} (M : Mat d) (c : ℚ) (hM : PSDQ M) (hc : 0 ≤ c) :
    PSDQ (fun i j => M i j / c) := by
  constructor
  · intro i j
    dsimp only
    rw [hM.1 i j]
  · intro y
    have h : quadForm (fun i j => M i j / c) y = quadForm M y / c := by
      unfold quadForm
      rw [Finset.sum_div]
      refine Finset.sum_congr rfl fun i _ => ?_
      rw [Finset.sum_div]
      refine Finset.sum_congr rfl fun j _ => ?_
      ring
    rw [h]
    exact div_nonneg (hM.2 y) hc

/-- C6 confirmed: in exact arithmetic the recursive covariance update
never overwrites the covariance with a non-positive-semi-definite
matrix: on every call following the call pattern of the cold chain
(mem <= iter, iter >= 2, incoming mean and scatter describing the
already-consumed prefix of the buffer, or the reset state at the first
call), the produced cov equals the scatter matrix of all consumed
samples divided by it-1 and is PSD.  The warning-and-retain clause of
the claim is therefore vacuous here: a non-PSD update can arise only
from floating-point rounding, and the source indeed contains no PSD
check. -/
theorem updateRecursive_psd {d : ℕ} (iter mem : ℕ) (buffer : ℕ → Vec d)
    (mu0 : Vec d) (M20 : Mat d)
    (hmem : mem ≤ iter) (h2 : 2 ≤ iter)
    (hmu : iter - mem ≠ 0 → mu0 = meanN buffer (iter - mem))
    (hM2 : iter - mem ≠ 0 → M20 = scatterN buffer (iter - mem)) :
    (updateRecursive iter mem buffer mu0 M20).2
      = (fun i j => scatterN buffer iter i j / ((iter : ℚ) - 1)) ∧
    PSDQ (updateRecursive iter mem buffer mu0 M20).2 := by
  have hst0 : (if iter - mem = 0
        then (⟨0, fun _ => 0, fun _ _ => 0⟩ : WelfordState d)
        else ⟨iter - mem, mu0, M20⟩)
      = welfordIter buffer (iter - mem) := by
    by_cases h : iter - mem = 0
    · rw [if_pos h, h]
      rfl
    · rw [if_neg h, hmu h, hM2 h, welfordIter_eq]
  have hupd : updateRecursive iter mem buffer mu0 M20
      = (welfordIter buffer iter,
        fun i j => scatterN buffer iter i j / ((iter : ℚ) - 1)) := by
    unfold updateRecursive
    dsimp only
    rw [hst0, welfordChunk_eq, Nat.sub_add_cancel hmem, welfordIter_eq]
  rw [hupd]
  have hps := PSDQ_div (scatterN buffer iter) ((iter : ℚ) - 1)
    (scatterN_psd buffer iter)
    (by
      have : (2 : ℚ) ≤ (iter : ℚ) := by exact_mod_cast h2
      linarith)
  exact ⟨rfl, hps⟩

/-- C6 witness: instantiation of updateRecursive_psd at the first
covariance update of a one-dimensional chain with mem = iter = 2. -/
theorem updateRecursive_psd_witness :
    (updateRecursive 2 2 ((fun k _ => (k : ℚ)) : ℕ → Vec 1)
        (fun _ => 0) (fun _ _ => 0)).2
      = (fun i j =>
          scatterN ((fun k _ => (k : ℚ)) : ℕ → Vec 1) 2 i j / ((2 : ℚ) - 1)) ∧
    PSDQ (updateRecursive 2 2 ((fun k _ => (k : ℚ)) : ℕ → Vec 1)
      (fun _ => 0) (fun _ _ => 0)).2 :=
  updateRecursive_psd 2 2 ((fun k _ => (k : ℚ)) : ℕ → Vec 1)
    (fun _ => 0) (fun _ _ => 0) (by decide) (by decide)
    (fun h => absurd rfl h) (fun h => absurd rfl h)

/-- C8 confirmed: the trans-dimensional proposal returns
m1 = keys[ind] for the uniformly drawn position ind (every registered
model is reachable), samples x1 from the KDE of m1, and returns
qxy = log p0 - log p1 where both densities are evaluated with the KDE
of the current (origin) model m0, at x0 and at x1 respectively; the
hypothesis is the logarithm quotient law satisfied by np.log on
positive densities. -/
theorem gaussianKDEJump_spec {M V : Type} (keys : List M)
    (TDJumpDict : M → KDEModel V) (logf : ℚ → ℚ) (x0 : V) (m0 : M)
    (ind : Fin keys.length)
    (hlog : ∀ a b : ℚ, logf (a / b) = logf a - logf b) :
    gaussianKDEJump keys TDJumpDict logf x0 m0 ind
      = ((TDJumpDict (keys.get ind)).resample, keys.get ind,
        logf ((TDJumpDict m0).evaluate x0)
          - logf ((TDJumpDict m0).evaluate
              ((TDJumpDict (keys.get ind)).resample))) := by
  unfold gaussianKDEJump
  dsimp only
  rw [hlog]

/-- C8 witness: instantiation of gaussianKDEJump_spec with two
registered models and the zero stand-in for the logarithm (which
satisfies the quotient law trivially). -/
theorem gaussianKDEJump_spec_witness :
    gaussianKDEJump [0, 1] (fun _ => ⟨fun _ => 1, (7 : ℚ)⟩) (fun _ => 0)
      (2 : ℚ) (0 : ℕ) ⟨1, by decide⟩
      = ((7 : ℚ), (1 : ℕ), (0 : ℚ) - 0) :=
  gaussianKDEJump_spec [0, 1] (fun _ => ⟨fun _ => 1, (7 : ℚ)⟩) (fun _ => 0)
    (2 : ℚ) (0 : ℕ) ⟨1, by decide⟩ (fun a b => by ring)

/-- C10 confirmed: with a single chain (nchain = 1, rank 0) every call
of PTswap returns swapReturn 0 and the state triple unchanged, sending
no decision; consequently the counters swapProposed and nswap_accepted
stay (0, 0) for the whole run, whatever per-iteration environments and
states occur. -/
theorem PTswap_single_chain (Tskip : ℕ) (ladder : ℕ → ℚ) (temp : ℚ)
    (logp : List ℚ → ℚ) (envs : ℕ → CommEnv)
    (states : ℕ → List ℚ × ℚ × ℚ) :
    (∀ iter env p0 lnlike0 lnprob0,
      PTswap 0 1 Tskip iter ladder temp logp env p0 lnlike0 lnprob0
        = ⟨0, p0, lnlike0, lnprob0, none⟩) ∧
    (∀ n, singleChainCounters Tskip ladder temp logp envs states n = (0, 0)) := by
  have hswap : ∀ iter env p0 l q,
      PTswap 0 1 Tskip iter ladder temp logp env p0 l q
        = ⟨0, p0, l, q, none⟩ := by
    intro iter env p0 l q
    simp [PTswap]
  refine ⟨hswap, ?_⟩
  intro n
  induction n with
  | zero => rfl
  | succ m ih => simp [singleChainCounters, ih, hswap, swapCounterStep]

end PAL2
